import Mathlib

/-!
Shallow embedding of `src/src/pages/GitHubProjects.tsx` (GitDiscovery).

The component keeps React state (`selectedProject`, `projects`,
`globalCategories`, `isDiscoveryMode`, `isLoading`) and mirrors the two
lists to a persistence backend (`setProjects` / `setCategories`) through
`useEffect` hooks that fire whenever the corresponding state value is
replaced.  We model the state together with the persisted copies, and each
event handler as a state-to-state function that also performs the effect
writes its state updates would trigger.
-/

namespace GitDiscovery

structure Category where
  id : String
  name : String
  color : String
deriving DecidableEq

structure Stats where
  stars : Nat
  forks : Nat
  watchers : Nat
  issues : Nat
deriving DecidableEq

structure LanguageEntry where
  name : String
  percentage : Int
deriving DecidableEq

structure Release where
  name : String
  published_at : String
  url : String
deriving DecidableEq

structure Project where
  id : String
  name : String
  description : String
  category : String
  url : String
  logo : Option String
  owner : String
  stats : Stats
  lastActivity : String
  contributors : Nat
  branches : Nat
  commits : Nat
  pullRequests : Nat
  categories : List Category
  languages : List LanguageEntry
  topics : List String
  license : Option String
  size : Option Nat
  lastRelease : Option Release
  homepage : Option String
deriving DecidableEq

structure RepoOwner where
  avatar_url : String
  login : String
deriving DecidableEq

structure RepoLicense where
  name : String
deriving DecidableEq

/-- The repository record emitted by the discovery search component. -/
structure GitHubRepo where
  id : Nat
  full_name : String
  name : String
  description : Option String
  html_url : String
  owner : RepoOwner
  stargazers_count : Nat
  forks_count : Nat
  watchers_count : Nat
  open_issues_count : Nat
  updated_at : String
  license : Option RepoLicense
  size : Nat
  homepage : Option String
deriving DecidableEq

structure ReleaseInfo where
  name : String
  published_at : String
  html_url : String
deriving DecidableEq

/-- The extended-details record returned by `getRepoDetails`.  The language
byte-count map is modelled as an association list in key-insertion order
(the iteration order of a JS object with string keys). -/
structure RepoDetails where
  languages : List (String × Nat)
  contributors : Nat
  branches : Nat
  commits : Nat
  pullRequests : Nat
  topics : Option (List String)
  lastRelease : Option ReleaseInfo
deriving DecidableEq

/-- Component state plus the lists held by the persistence backend.
`persistedProjects` / `persistedCategories` record what `setProjects` /
`setCategories` (the store writers) last received. -/
structure AppState where
  selectedProject : Option Project
  projects : List Project
  globalCategories : List Category
  isDiscoveryMode : Bool
  isLoading : Bool
  persistedProjects : List Project
  persistedCategories : List Category
deriving DecidableEq

/-- `addProject`: appends to the `projects` state; the `[projects]` effect
then writes the whole new list to the store. -/
def addProject (project : Project) (s : AppState) : AppState :=
  let projects := s.projects ++ [project]
  { s with projects := projects, persistedProjects := projects }

/-- `removeProject(id)`: filters the project with matching id out of the
`projects` state; the `[projects]` effect persists the new full list. -/
def removeProject (id : String) (s : AppState) : AppState :=
  let projects := s.projects.filter (fun p => p.id != id)
  { s with projects := projects, persistedProjects := projects }

/-- `addCategory(category)`: if a project is selected, appends the category
to that project's `categories` in the `projects` state (by id match),
updates the selected-project view, and appends to `globalCategories` when
no existing global category has the same `name`.  Both effects persist the
lists they watch. -/
def addCategory (category : Category) (s : AppState) : AppState :=
  match s.selectedProject with
  | none => s
  | some selectedProject =>
    let updatedProjects := s.projects.map (fun project =>
      if project.id == selectedProject.id then
        { project with categories := project.categories ++ [category] }
      else project)
    let s1 := { s with
      projects := updatedProjects,
      persistedProjects := updatedProjects,
      selectedProject := some { selectedProject with
        categories := selectedProject.categories ++ [category] } }
    if (s.globalCategories.find? (fun c => c.name == category.name)).isSome then
      s1
    else
      { s1 with
        globalCategories := s.globalCategories ++ [category],
        persistedCategories := s.globalCategories ++ [category] }

/-- `removeCategory(categoryId)`: if a project is selected, computes the
updated projects list and hands it to `setProjects` — the imported store
writer, not the state setter `setProjectsState` — so only the persisted
copy and the selected-project view change; the in-memory `projects` state
keeps the category. -/
def removeCategory (categoryId : String) (s : AppState) : AppState :=
  match s.selectedProject with
  | none => s
  | some selectedProject =>
    let updatedProjects := s.projects.map (fun project =>
      if project.id == selectedProject.id then
        { project with
          categories := project.categories.filter (fun c => c.id != categoryId) }
      else project)
    { s with
      persistedProjects := updatedProjects,
      selectedProject := some { selectedProject with
        categories := selectedProject.categories.filter (fun c => c.id != categoryId) } }

/-- `String.prototype.includes`: substring containment. -/
def jsIncludes (s sub : String) : Bool :=
  decide (sub.data <:+: s.data)

/-- The `filteredProjects` derived view: free-text match on lowercased
`name` or `description`, AND over all selected category ids (empty
selection imposes no category condition). -/
def filteredProjects (projects : List Project) (projectSearch : String)
    (selectedCategories : List String) : List Project :=
  projects.filter (fun project =>
    (jsIncludes project.name.toLower projectSearch.toLower ||
      jsIncludes project.description.toLower projectSearch.toLower) &&
    (selectedCategories.length == 0 ||
      selectedCategories.all (fun catId =>
        project.categories.any (fun c => c.id == catId))))

/-- The language-normalisation step of `handleSelectRepo`:
`percentage(lang) = Math.round(bytes / totalBytes * 100)` with
`totalBytes` the sum of all byte counts, then a stable sort descending by
percentage (`Array.prototype.sort` is stable, comparator
`(a, b) => b.percentage - a.percentage`). -/
def normalizeLanguages (languages : List (String × Nat)) : List LanguageEntry :=
  let totalBytes : Nat := (languages.map (fun p => p.2)).sum
  (languages.map (fun p =>
      { name := p.1
        percentage := round (((p.2 : ℚ) / (totalBytes : ℚ)) * 100) })).mergeSort
    (fun a b => decide (b.percentage ≤ a.percentage))

/-- The Project literal `handleSelectRepo` builds from the selected repo
and the fetched details. -/
def buildProject (repo : GitHubRepo) (details : RepoDetails) : Project :=
  { id := toString repo.id
    name := repo.name
    description := repo.description.getD ""
    category := ""
    url := repo.html_url
    logo := some repo.owner.avatar_url
    owner := repo.owner.login
    stats := { stars := repo.stargazers_count
               forks := repo.forks_count
               watchers := repo.watchers_count
               issues := repo.open_issues_count }
    lastActivity := repo.updated_at
    contributors := details.contributors
    branches := details.branches
    commits := details.commits
    pullRequests := details.pullRequests
    categories := []
    languages := normalizeLanguages details.languages
    topics := details.topics.getD []
    license := repo.license.map (fun l => l.name)
    size := some repo.size
    lastRelease := details.lastRelease.map (fun r =>
      { name := r.name, published_at := r.published_at, url := r.html_url })
    homepage := repo.homepage }

/-- `handleSelectRepo`: sets the loading flag, awaits `getRepoDetails`
(whose outcome is the `fetchResult` parameter).  On success it appends the
built project and leaves discovery mode; on failure the error is caught
(logged to the console) and nothing else happens; `finally` clears the
loading flag. -/
def handleSelectRepo (repo : GitHubRepo) (fetchResult : Except Unit RepoDetails)
    (s : AppState) : AppState :=
  let s0 := { s with isLoading := true }
  match fetchResult with
  | .error _ => { s0 with isLoading := false }
  | .ok details =>
    let s1 := addProject (buildProject repo details) s0
    { s1 with isDiscoveryMode := false, isLoading := false }

/-- Spec-side visibility predicate, written from the spec's words: the
query is a case-insensitive substring of the name or the description, and
either no category is selected or every selected category id occurs among
the project's categories. -/
def VisibleSpec (projectSearch : String) (selectedCategories : List String)
    (project : Project) : Prop :=
  (projectSearch.toLower.data <:+: project.name.toLower.data ∨
    projectSearch.toLower.data <:+: project.description.toLower.data) ∧
  (selectedCategories = [] ∨
    ∀ catId ∈ selectedCategories, ∃ c ∈ project.categories, c.id = catId)

/-! ### Projection lemmas for the category-mutation handlers -/

theorem addCategory_projects (s : AppState) (sel : Project) (category : Category)
    (h : s.selectedProject = some sel) :
    (addCategory category s).projects = s.projects.map (fun project =>
      if project.id == sel.id then
        { project with categories := project.categories ++ [category] }
      else project) := by
  simp only [addCategory, h]
  split <;> rfl

theorem addCategory_persistedProjects (s : AppState) (sel : Project) (category : Category)
    (h : s.selectedProject = some sel) :
    (addCategory category s).persistedProjects = s.projects.map (fun project =>
      if project.id == sel.id then
        { project with categories := project.categories ++ [category] }
      else project) := by
  simp only [addCategory, h]
  split <;> rfl

theorem addCategory_selectedProject (s : AppState) (sel : Project) (category : Category)
    (h : s.selectedProject = some sel) :
    (addCategory category s).selectedProject
      = some { sel with categories := sel.categories ++ [category] } := by
  simp only [addCategory, h]
  split <;> rfl

theorem addCategory_globalCategories (s : AppState) (sel : Project) (category : Category)
    (h : s.selectedProject = some sel) :
    (addCategory category s).globalCategories
      = if (s.globalCategories.find? (fun c => c.name == category.name)).isSome
        then s.globalCategories
        else s.globalCategories ++ [category] := by
  simp only [addCategory, h]
  split <;> simp_all

theorem removeCategory_projects (s : AppState) (sel : Project) (categoryId : String)
    (h : s.selectedProject = some sel) :
    (removeCategory categoryId s).projects = s.projects := by
  simp only [removeCategory, h]

theorem removeCategory_persistedProjects (s : AppState) (sel : Project) (categoryId : String)
    (h : s.selectedProject = some sel) :
    (removeCategory categoryId s).persistedProjects = s.projects.map (fun project =>
      if project.id == sel.id then
        { project with
          categories := project.categories.filter (fun c => c.id != categoryId) }
      else project) := by
  simp only [removeCategory, h]

theorem removeCategory_selectedProject (s : AppState) (sel : Project) (categoryId : String)
    (h : s.selectedProject = some sel) :
    (removeCategory categoryId s).selectedProject
      = some { sel with
          categories := sel.categories.filter (fun c => c.id != categoryId) } := by
  simp only [removeCategory, h]

theorem removeCategory_globalCategories (s : AppState) (sel : Project) (categoryId : String)
    (h : s.selectedProject = some sel) :
    (removeCategory categoryId s).globalCategories = s.globalCategories := by
  simp only [removeCategory, h]

/-- A map that fixes every element outside the touched id is pointwise
related to the original list. -/
theorem forall₂_map_of_fix {α : Type} (R : α → α → Prop) (f : α → α) (l : List α)
    (h : ∀ a, R a (f a)) : List.Forall₂ R l (l.map f) := by
  rw [List.forall₂_map_right_iff]
  exact List.forall₂_same.mpr (fun a _ => h a)

/-! ### Claim theorems -/

/-- C7: when the extended-details fetch fails, `handleSelectRepo` adds no
project, leaves discovery mode as it was, clears the loading flag, and
changes nothing else (the error is caught locally; the handler is a total
function of the state, so no error reaches the caller). -/
theorem claim_C7_handleSelectRepo_failure (repo : GitHubRepo) (e : Unit) (s : AppState) :
    (handleSelectRepo repo (.error e) s).projects = s.projects ∧
    (handleSelectRepo repo (.error e) s).isDiscoveryMode = s.isDiscoveryMode ∧
    (handleSelectRepo repo (.error e) s).isLoading = false ∧
    handleSelectRepo repo (.error e) s = { s with isLoading := false } :=
  ⟨rfl, rfl, rfl, rfl⟩

/-- C8: with no selected project, `addCategory` and `removeCategory` are
no-ops on the whole state (in particular on the projects list, the
selected-project view and the global category list), and raise no error. -/
theorem claim_C8_no_selection_noop (s : AppState) (category : Category)
    (categoryId : String) (h : s.selectedProject = none) :
    addCategory category s = s ∧ removeCategory categoryId s = s := by
  constructor <;> simp only [addCategory, removeCategory, h]

/-- C9: `addProject` appends with no de-duplication: adding the same
project twice leaves two entries with its id and raises the count of that
id by exactly 2; selecting the same discovery repository twice (with the
same successful fetch) appends two identical Project records whose id is
the repo's numeric id rendered as a string. -/
theorem claim_C9_no_dedup (p : Project) (s t : AppState) (repo : GitHubRepo)
    (d : RepoDetails) :
    (addProject p (addProject p s)).projects = s.projects ++ [p, p] ∧
    (addProject p (addProject p s)).projects.countP (fun q => q.id == p.id)
      = s.projects.countP (fun q => q.id == p.id) + 2 ∧
    (handleSelectRepo repo (.ok d) (handleSelectRepo repo (.ok d) t)).projects
      = t.projects ++ [buildProject repo d, buildProject repo d] ∧
    (buildProject repo d).id = toString repo.id := by
  refine ⟨?_, ?_, ?_, rfl⟩
  · simp [addProject]
  · simp [addProject, List.countP_append, List.countP_cons]
  · simp [handleSelectRepo, addProject]

/-- C10: with a selected project, both category mutations leave every
project whose id differs from the selected project's id unchanged, both in
the in-memory projects list and in the persisted list. -/
theorem claim_C10_frame (s : AppState) (sel : Project) (category : Category)
    (categoryId : String) (h : s.selectedProject = some sel) :
    List.Forall₂ (fun p q => p.id ≠ sel.id → q = p)
      s.projects (addCategory category s).projects ∧
    List.Forall₂ (fun p q => p.id ≠ sel.id → q = p)
      s.projects (addCategory category s).persistedProjects ∧
    List.Forall₂ (fun p q => p.id ≠ sel.id → q = p)
      s.projects (removeCategory categoryId s).projects ∧
    List.Forall₂ (fun p q => p.id ≠ sel.id → q = p)
      s.projects (removeCategory categoryId s).persistedProjects := by
  have hfix₁ : ∀ a : Project, a.id ≠ sel.id →
      (if a.id == sel.id then
        { a with categories := a.categories ++ [category] }
      else a) = a := by
    intro a ha; simp [ha]
  have hfix₂ : ∀ a : Project, a.id ≠ sel.id →
      (if a.id == sel.id then
        { a with categories := a.categories.filter (fun c => c.id != categoryId) }
      else a) = a := by
    intro a ha; simp [ha]
  refine ⟨?_, ?_, ?_, ?_⟩
  · rw [addCategory_projects s sel category h]
    exact forall₂_map_of_fix _ _ _ hfix₁
  · rw [addCategory_persistedProjects s sel category h]
    exact forall₂_map_of_fix _ _ _ hfix₁
  · rw [removeCategory_projects s sel categoryId h]
    exact List.forall₂_same.mpr (fun a _ _ => rfl)
  · rw [removeCategory_persistedProjects s sel categoryId h]
    exact forall₂_map_of_fix _ _ _ hfix₂

/-- C3: with a selected project, `addCategory` grows the selected
project's `categories` by exactly one, and the global category list gains
the new entry exactly when no existing global category has the same name
(case-sensitive). -/
theorem claim_C3_addCategory (s : AppState) (sel : Project) (category : Category)
    (h : s.selectedProject = some sel) :
    (addCategory category s).selectedProject.map (fun p => p.categories.length)
      = some (sel.categories.length + 1) ∧
    ((addCategory category s).globalCategories = s.globalCategories ++ [category]
      ↔ ∀ c ∈ s.globalCategories, c.name ≠ category.name) ∧
    ((addCategory category s).globalCategories = s.globalCategories
      ↔ ∃ c ∈ s.globalCategories, c.name = category.name) := by
  have hsome : (s.globalCategories.find? (fun c => c.name == category.name)).isSome
      ↔ ∃ c ∈ s.globalCategories, c.name = category.name := by
    simp [List.find?_isSome]
  have hne : s.globalCategories ++ [category] ≠ s.globalCategories := by
    intro hcontra
    have := congrArg List.length hcontra
    simp at this
  refine ⟨?_, ?_, ?_⟩
  · rw [addCategory_selectedProject s sel category h]
    simp
  · rw [addCategory_globalCategories s sel category h]
    by_cases hc : ∃ c ∈ s.globalCategories, c.name = category.name
    · rw [if_pos (hsome.mpr hc)]
      constructor
      · intro habs; exact absurd habs.symm hne
      · intro hall
        obtain ⟨c, hmem, hname⟩ := hc
        exact absurd hname (hall c hmem)
    · rw [if_neg (fun habs => hc (hsome.mp habs))]
      constructor
      · intro _ c hmem hname; exact hc ⟨c, hmem, hname⟩
      · intro _; rfl
  · rw [addCategory_globalCategories s sel category h]
    by_cases hc : ∃ c ∈ s.globalCategories, c.name = category.name
    · rw [if_pos (hsome.mpr hc)]
      exact ⟨fun _ => hc, fun _ => rfl⟩
    · rw [if_neg (fun habs => hc (hsome.mp habs))]
      exact ⟨fun habs => absurd habs hne, fun habs => absurd habs hc⟩

/-- C4 (amended): `removeProject(id)` leaves no entry with the removed id,
its result's length is the original length minus the number of entries
bearing that id (so `n - 1` exactly when the id occurred once), and the
persistence layer receives the new full list. -/
theorem claim_C4_removeProject (s : AppState) (id : String) :
    (∀ p ∈ (removeProject id s).projects, p.id ≠ id) ∧
    (removeProject id s).projects.length
      = s.projects.length - s.projects.countP (fun p => p.id == id) ∧
    (removeProject id s).persistedProjects = (removeProject id s).projects := by
  refine ⟨?_, ?_, rfl⟩
  · intro p hp
    have := List.of_mem_filter hp
    simpa using this
  · simp only [removeProject, ← List.countP_eq_length_filter]
    have hsplit := List.length_eq_countP_add_countP
      (fun p : Project => p.id == id) s.projects
    have hcompl : s.projects.countP (fun a => ¬ ((fun p : Project => p.id == id) a))
        = s.projects.countP (fun p => p.id != id) := by
      apply List.countP_congr
      intro p _
      simp [bne]
    rw [hcompl] at hsplit
    omega

/-! ### Concrete sample data -/

def catTools : Category := { id := "c1", name := "Tools", color := "#ff0000" }

def catWeb : Category := { id := "c2", name := "Web", color := "#00ff00" }

def projAlpha : Project :=
  { id := "1", name := "Alpha", description := "first project", category := ""
    url := "https://example.org/alpha", logo := none, owner := "octo"
    stats := { stars := 1, forks := 2, watchers := 3, issues := 4 }
    lastActivity := "2024-01-01", contributors := 5, branches := 1, commits := 10
    pullRequests := 0, categories := [catTools], languages := [], topics := []
    license := none, size := none, lastRelease := none, homepage := none }

def baseState : AppState :=
  { selectedProject := none, projects := [], globalCategories := []
    isDiscoveryMode := false, isLoading := false
    persistedProjects := [], persistedCategories := [] }

/-- State holding two copies of `projAlpha` (reachable because
`addProject` never de-duplicates). -/
def dupState : AppState := { baseState with projects := [projAlpha, projAlpha] }

/-- State holding `projAlpha`, which is also the selected project. -/
def selState : AppState :=
  { baseState with projects := [projAlpha], selectedProject := some projAlpha }

/-- C4 counterexample: a two-element list whose entries share the id `"1"`;
`removeProject "1"` empties the list, so its length is `0`, not `n - 1 = 1`. -/
theorem claim_C4_counterexample :
    ¬ ((removeProject "1" dupState).projects.length = dupState.projects.length - 1) := by
  decide

/-- C1: concrete evaluation of `removeCategory` at a state with one
project (id `"1"`, carrying category `"c1"`) that is also selected.  The
in-memory projects list is returned unchanged — it still carries the
category `"c1"` — because the handler passes the updated list to the
persistence writer `setProjects` instead of the state setter
`setProjectsState`; only the persisted copy and the selected-project view
drop the category.  The global category list is unchanged. -/
theorem claim_C1_removeCategory_behavior :
    (removeCategory "c1" selState).projects = [projAlpha] ∧
    (∃ p ∈ (removeCategory "c1" selState).projects, ∃ c ∈ p.categories, c.id = "c1") ∧
    (removeCategory "c1" selState).selectedProject
      = some { projAlpha with categories := [] } ∧
    (removeCategory "c1" selState).persistedProjects
      = [{ projAlpha with categories := [] }] ∧
    (removeCategory "c1" selState).globalCategories = [] := by
  refine ⟨by decide, ⟨projAlpha, by decide, catTools, by decide, rfl⟩,
    by decide, by decide, by decide⟩

/-- Witness for C8 at a concrete unselected state. -/
theorem claim_C8_witness :
    baseState.selectedProject = none ∧
    (addCategory catWeb baseState = baseState ∧ removeCategory "c1" baseState = baseState) :=
  ⟨rfl, claim_C8_no_selection_noop baseState catWeb "c1" rfl⟩

/-- Witness for C10 at a concrete selected state. -/
theorem claim_C10_witness :
    selState.selectedProject = some projAlpha ∧
    (List.Forall₂ (fun p q => p.id ≠ projAlpha.id → q = p)
      selState.projects (addCategory catWeb selState).projects ∧
    List.Forall₂ (fun p q => p.id ≠ projAlpha.id → q = p)
      selState.projects (addCategory catWeb selState).persistedProjects ∧
    List.Forall₂ (fun p q => p.id ≠ projAlpha.id → q = p)
      selState.projects (removeCategory "c1" selState).projects ∧
    List.Forall₂ (fun p q => p.id ≠ projAlpha.id → q = p)
      selState.projects (removeCategory "c1" selState).persistedProjects) :=
  ⟨rfl, claim_C10_frame selState projAlpha catWeb "c1" rfl⟩

/-- Witness for C3 at a concrete selected state. -/
theorem claim_C3_witness :
    selState.selectedProject = some projAlpha ∧
    ((addCategory catWeb selState).selectedProject.map (fun p => p.categories.length)
      = some (projAlpha.categories.length + 1) ∧
    ((addCategory catWeb selState).globalCategories
        = selState.globalCategories ++ [catWeb]
      ↔ ∀ c ∈ selState.globalCategories, c.name ≠ catWeb.name) ∧
    ((addCategory catWeb selState).globalCategories = selState.globalCategories
      ↔ ∃ c ∈ selState.globalCategories, c.name = catWeb.name)) :=
  ⟨rfl, claim_C3_addCategory selState projAlpha catWeb rfl⟩

/-- C2: the filtered list is an order-preserving sublist of the projects
list, and it contains exactly the projects whose lowercased name or
description contains the lowercased query as a substring and which carry
every selected category id (no category condition when the selection is
empty). -/
theorem claim_C2_filteredProjects (projects : List Project) (projectSearch : String)
    (selectedCategories : List String) :
    List.Sublist (filteredProjects projects projectSearch selectedCategories) projects ∧
    ∀ project, (project ∈ filteredProjects projects projectSearch selectedCategories
      ↔ project ∈ projects ∧ VisibleSpec projectSearch selectedCategories project) := by
  constructor
  · exact List.filter_sublist _
  · intro project
    simp only [filteredProjects, List.mem_filter, VisibleSpec, jsIncludes,
      Bool.and_eq_true, Bool.or_eq_true, decide_eq_true_eq, beq_iff_eq,
      List.length_eq_zero, List.all_eq_true, List.any_eq_true]

/-! ### Language normalisation -/

/-- The comparator of the descending percentage sort. -/
def langLE (a b : LanguageEntry) : Bool :=
  decide (b.percentage ≤ a.percentage)

theorem normalizeLanguages_perm (languages : List (String × Nat)) :
    (normalizeLanguages languages).Perm
      (languages.map (fun p =>
        ({ name := p.1
           percentage :=
             round (((p.2 : ℚ) / (((languages.map (fun q => q.2)).sum : ℕ) : ℚ)) * 100) }
          : LanguageEntry))) := by
  unfold normalizeLanguages
  exact List.mergeSort_perm _ _

theorem langLE_trans (a b c : LanguageEntry) :
    langLE a b → langLE b c → langLE a c := by
  simp only [langLE, decide_eq_true_eq]
  omega

theorem langLE_total (a b : LanguageEntry) : langLE a b || langLE b a := by
  simp only [langLE, Bool.or_eq_true, decide_eq_true_eq]
  omega

theorem normalizeLanguages_pairwise (languages : List (String × Nat)) :
    List.Pairwise (fun a b => b.percentage ≤ a.percentage)
      (normalizeLanguages languages) := by
  have hs := @List.sorted_mergeSort _ langLE langLE_trans langLE_total
    (languages.map (fun p =>
      ({ name := p.1
         percentage :=
           round (((p.2 : ℚ) / (((languages.map (fun q => q.2)).sum : ℕ) : ℚ)) * 100) }
        : LanguageEntry)))
  have heq : normalizeLanguages languages
      = (languages.map (fun p =>
        ({ name := p.1
           percentage :=
             round (((p.2 : ℚ) / (((languages.map (fun q => q.2)).sum : ℕ) : ℚ)) * 100) }
          : LanguageEntry))).mergeSort langLE := rfl
  rw [heq]
  exact hs.imp (fun h => by simpa [langLE] using h)

theorem sum_map_add_const {α : Type} (l : List α) (f : α → ℚ) (c : ℚ) :
    (l.map (fun x => f x + c)).sum = (l.map f).sum + l.length * c := by
  induction l with
  | nil => simp
  | cons a t ih =>
    simp only [List.map_cons, List.sum_cons, ih, List.length_cons]
    push_cast
    ring

theorem sum_map_cast_snd (l : List (String × Nat)) :
    (l.map (fun p => ((p.2 : ℕ) : ℚ))).sum = (((l.map (fun p => p.2)).sum : ℕ) : ℚ) := by
  induction l with
  | nil => simp
  | cons a t ih => simp [ih]

/-- C5: for a non-empty byte-count map with positive total, normalisation
yields, per language, `round(100 · bytes / total)` (as a permutation of the
input entries), sorted descending by percentage; at the input
`{TypeScript: 300, JavaScript: 100}` it yields
`[{TypeScript, 75}, {JavaScript, 25}]`. -/
theorem claim_C5_normalizeLanguages (languages : List (String × Nat))
    (hne : languages ≠ [])
    (hpos : 0 < (languages.map (fun p => p.2)).sum) :
    (normalizeLanguages languages).Perm
      (languages.map (fun p =>
        ({ name := p.1
           percentage :=
             round ((100 * (p.2 : ℚ)) / (((languages.map (fun q => q.2)).sum : ℕ) : ℚ)) }
          : LanguageEntry))) ∧
    List.Pairwise (fun a b => b.percentage ≤ a.percentage)
      (normalizeLanguages languages) ∧
    normalizeLanguages [("TypeScript", 300), ("JavaScript", 100)]
      = [{ name := "TypeScript", percentage := 75 },
         { name := "JavaScript", percentage := 25 }] := by
  refine ⟨?_, normalizeLanguages_pairwise languages, ?_⟩
  · refine (normalizeLanguages_perm languages).trans ?_
    rw [List.map_congr_left]
    intro p _
    congr 1
    rw [div_mul_eq_mul_div, mul_comm]
  · have h75 : round ((((300:ℕ):ℚ) / ((400:ℕ):ℚ)) * 100) = (75:ℤ) := by norm_num
    have h25 : round ((((100:ℕ):ℚ) / ((400:ℕ):ℚ)) * 100) = (25:ℤ) := by norm_num
    unfold normalizeLanguages
    simp only [List.map, List.sum_cons, List.sum_nil]
    norm_num [h75, h25]
    rw [List.mergeSort_of_sorted]
    refine List.Pairwise.cons ?_ (List.pairwise_singleton _ _)
    intro b hb
    simp only [List.mem_singleton] at hb
    subst hb
    decide

/-- Witness for C5 at the `{TypeScript: 300, JavaScript: 100}` input. -/
theorem claim_C5_witness :
    ([("TypeScript", 300), ("JavaScript", 100)] : List (String × Nat)) ≠ [] ∧
    0 < (([("TypeScript", 300), ("JavaScript", 100)] : List (String × Nat)).map
      (fun p => p.2)).sum ∧
    normalizeLanguages [("TypeScript", 300), ("JavaScript", 100)]
      = [{ name := "TypeScript", percentage := 75 },
         { name := "JavaScript", percentage := 25 }] :=
  ⟨by simp, by decide,
    (claim_C5_normalizeLanguages [("TypeScript", 300), ("JavaScript", 100)]
      (by simp) (by decide)).2.2⟩

/-- C6 counterexample: four languages with byte counts 1, 1, 1, 3 give
rounded percentages 17, 17, 17 and 50, which sum to 101 > 100. -/
theorem claim_C6_counterexample :
    ¬ (((normalizeLanguages [("a", 1), ("b", 1), ("c", 1), ("d", 3)]).map
        (fun e => e.percentage)).sum ≤ 100) := by
  have hperm := (normalizeLanguages_perm [("a", 1), ("b", 1), ("c", 1), ("d", 3)]).map
    (fun e => e.percentage)
  rw [hperm.sum_eq]
  simp only [List.map, List.sum_cons, List.sum_nil]
  norm_num [round_eq]

/-- C6 (amended): for a positive total, the rounded percentages sum to at
most `100 + n/2` where `n` is the number of languages (each rounding step
adds at most one half; the sum can exceed 100). -/
theorem claim_C6_sum_bound (languages : List (String × Nat))
    (hpos : 0 < (languages.map (fun p => p.2)).sum) :
    ((normalizeLanguages languages).map (fun e => (e.percentage : ℚ))).sum
      ≤ 100 + (languages.length : ℚ) / 2 := by
  set T : ℕ := (languages.map (fun p => p.2)).sum with hTdef
  have hT0 : ((T : ℕ) : ℚ) ≠ 0 := Nat.cast_ne_zero.mpr (by omega)
  have hperm := (normalizeLanguages_perm languages).map (fun e => (e.percentage : ℚ))
  rw [hperm.sum_eq, List.map_map]
  have hcomp : ((fun e : LanguageEntry => (e.percentage : ℚ)) ∘ (fun p : String × Nat =>
      ({ name := p.1
         percentage := round (((p.2 : ℚ) / ((T : ℕ) : ℚ)) * 100) } : LanguageEntry)))
      = fun p : String × Nat => ((round (((p.2 : ℚ) / ((T : ℕ) : ℚ)) * 100) : ℤ) : ℚ) := by
    funext p
    rfl
  rw [hcomp]
  have hle : ∀ p ∈ languages,
      ((round (((p.2 : ℚ) / ((T : ℕ) : ℚ)) * 100) : ℤ) : ℚ)
        ≤ ((p.2 : ℚ) / ((T : ℕ) : ℚ)) * 100 + 1 / 2 := by
    intro p _
    have h := abs_sub_round (((p.2 : ℚ) / ((T : ℕ) : ℚ)) * 100)
    rw [abs_le] at h
    linarith [h.1]
  have hsum100 : (languages.map (fun p => ((p.2 : ℚ) / ((T : ℕ) : ℚ)) * 100)).sum = 100 := by
    have hfun : (fun p : String × Nat => (((p.2 : ℕ) : ℚ) / ((T : ℕ) : ℚ)) * 100)
        = (fun p : String × Nat => (100 / ((T : ℕ) : ℚ)) * ((p.2 : ℕ) : ℚ)) := by
      funext p
      ring
    rw [hfun, List.sum_map_mul_left, sum_map_cast_snd, ← hTdef]
    field_simp
  calc (languages.map (fun p =>
          ((round (((p.2 : ℚ) / ((T : ℕ) : ℚ)) * 100) : ℤ) : ℚ))).sum
      ≤ (languages.map (fun p => ((p.2 : ℚ) / ((T : ℕ) : ℚ)) * 100 + 1 / 2)).sum :=
        List.sum_le_sum hle
    _ = (languages.map (fun p => ((p.2 : ℚ) / ((T : ℕ) : ℚ)) * 100)).sum
          + languages.length * (1 / 2) :=
        sum_map_add_const languages _ _
    _ = 100 + languages.length * (1 / 2) := by rw [hsum100]
    _ = 100 + (languages.length : ℚ) / 2 := by ring

/-- Witness for the amended C6 bound at the four-language counterexample
input (there the sum is 101 ≤ 100 + 4/2 = 102). -/
theorem claim_C6_witness :
    0 < (([("a", 1), ("b", 1), ("c", 1), ("d", 3)] : List (String × Nat)).map
      (fun p => p.2)).sum ∧
    ((normalizeLanguages [("a", 1), ("b", 1), ("c", 1), ("d", 3)]).map
        (fun e => (e.percentage : ℚ))).sum
      ≤ 100 + ((([("a", 1), ("b", 1), ("c", 1), ("d", 3)] : List (String × Nat)).length : ℚ)) / 2 :=
  ⟨by decide, claim_C6_sum_bound [("a", 1), ("b", 1), ("c", 1), ("d", 3)] (by decide)⟩

end GitDiscovery
